import Mathlib

/-!
Shallow embedding of the OpenPype v4 server client layer
(`openpype/client/server/graphql.py` and `openpype/client/server/entities.py`).

Conventions used throughout:
* Python strings are Lean `String`s; Python `None`-or-string values are
  `Option String`.
* A dotted field path (`"data.family"`) is modelled by its `"."`-split
  component list (`["data", "family"]`), which is how the source itself
  immediately decomposes it (`field.split(".")`); every such list is
  nonempty because `str.split` never returns an empty list.
* Python `set` objects are modelled as `Finset`s: only membership and
  emptiness of the sets ever matter to the code under study, and
  `list(some_set)` conversions are kept as the `Finset` itself.
* Python exceptions are modelled by `Except` with an error value that
  records the exception class (`ValueError` / `TypeError` / `IndexError`)
  together with its message.
* Generator functions and functions executing a network query are staged:
  a pure "plan" computes everything the code does before touching the
  connection (`none` = the early `return []` short-circuit, `some`
  = the filter variables and field set that would be bound to a query),
  and a pure post-processing function models what the code does to the
  records the server sent back.
-/

/-- The `ALL_SUBFIELDS` sentinel and the nested `dict` values of
`fields_to_dict` in `graphql.py`: a trie node is either the sentinel
(select all sub-fields) or a mapping from key to sub-trie.  Python dicts
are insertion ordered, hence the association list. -/
inductive FieldTrie where
  | all : FieldTrie
  | node : List (String × FieldTrie) → FieldTrie

/-- Python `value[k] = v` on an (insertion ordered) dict: replace in place
if the key exists, append otherwise. -/
def setKey : List (String × FieldTrie) → String → FieldTrie → List (String × FieldTrie)
  | [], k, v => [(k, v)]
  | (k', v') :: rest, k, v =>
    if k' = k then (k', v) :: rest else (k', v') :: setKey rest k v

/-- Python `value[k]` lookup on a dict (`part in value` test + access). -/
def lookupKey : List (String × FieldTrie) → String → Option FieldTrie
  | [], _ => none
  | (k', v') :: rest, k => if k' = k then some v' else lookupKey rest k

/-- The body of the `for field in fields` loop of `fields_to_dict`
(graphql.py lines 13-26), for one field split as `hierarchy ++ [last]`:
walk `hierarchy` creating empty dicts for missing keys, stop as soon as
the walk reaches the `ALL_SUBFIELDS` sentinel (the `break`, after which
the final `value[last] = ALL_SUBFIELDS` is also skipped), otherwise mark
`last` as `ALL_SUBFIELDS` in the reached dict. -/
def insertParts : FieldTrie → List String → String → FieldTrie
  | .all, _, _ => .all
  | .node m, [], last => .node (setKey m last .all)
  | .node m, part :: rest, last =>
    match lookupKey m part with
    | some sub => .node (setKey m part (insertParts sub rest last))
    | none => .node (setKey m part (insertParts (.node []) rest last))

/-- One iteration of `fields_to_dict`'s loop on a whole split field path
(`hierarchy = field.split("."); last = hierarchy.pop(-1)`). -/
def insertPath (t : FieldTrie) (f : List String) : FieldTrie :=
  match f.getLast? with
  | some last => insertParts t f.dropLast last
  | none => t

/-- `fields_to_dict(fields)` of graphql.py (lines 8-27), with each dotted
string already replaced by its `"."`-split component list.  Returns `none`
(Python `None`) on a falsy (empty) input. -/
def fields_to_dict (fields : List (List String)) : Option FieldTrie :=
  if fields.isEmpty then none
  else some (fields.foldl insertPath (.node []))

/-- Flattening a trie back into the (split) dotted leaf paths: the paths
that end at an `ALL_SUBFIELDS` sentinel. -/
def trieLeaves : FieldTrie → List (List String)
  | .all => [[]]
  | .node [] => []
  | .node ((k, sub) :: rest) =>
    (trieLeaves sub).map (k :: ·) ++ trieLeaves (.node rest)

/-- Leaf paths of the optional trie returned by `fields_to_dict`
(`None` flattens to nothing). -/
def dictLeaves : Option FieldTrie → List (List String)
  | none => []
  | some t => trieLeaves t

mutual

/-- Well-formedness invariant every Python-dict-built trie satisfies:
the keys of each node are distinct. -/
def trieWF : FieldTrie → Prop
  | .all => True
  | .node m => (m.map Prod.fst).Nodup ∧ entriesWF m

/-- `trieWF` for every value of an association list. -/
def entriesWF : List (String × FieldTrie) → Prop
  | [] => True
  | p :: rest => trieWF p.2 ∧ entriesWF rest

end

/-- `q` is a proper (component-wise) prefix of `p`: the dotted string `q`
followed by a dot is an initial segment of the dotted string `p`. -/
def properPrefix (q p : List String) : Prop :=
  q <+: p ∧ q ≠ p

/-- The leaf-path set of a field-path list: the paths that have no proper
prefix in the list (a path whose proper prefix is also requested is
absorbed into that prefix's select-all-subfields wildcard). -/
def minimalPath (P : List (List String)) (p : List String) : Prop :=
  p ∈ P ∧ ¬ ∃ q ∈ P, properPrefix q p

/-- A Python exception raised by the query builder, recording the
exception class and message. -/
inductive PyErr where
  | valueError (msg : String)
  | typeError (msg : String)
  | indexError (msg : String)
deriving DecidableEq, Repr

/-- A filter value as stored by `GraphQlQueryItem.filter`: either a Python
`str` (a `QueryVariable` is converted to its `"$name"` string on the way
in), a non-iterable literal (`True`, an int), or an iterable of scalars
(a list of strings). -/
inductive FilterValue where
  | str (s : String)
  | boolVal (b : Bool)
  | intVal (n : Int)
  | strList (xs : List String)
deriving DecidableEq, Repr

/-- One entry of `GraphQlQueryItem._filters_to_string`'s loop
(graphql.py lines 239-255): a non-string value that is iterable renders as
a bracketed quoted list WITHOUT the key (the `single_filter` assignment in
the `try` block never mentions `key`); everything else renders as
`key: value` (Python's `str(True) = "True"`). -/
def filterEntryToString (key : String) : FilterValue → String
  | .str s => key ++ ": " ++ s
  | .boolVal b => key ++ ": " ++ (if b then "True" else "False")
  | .intVal n => key ++ ": " ++ toString n
  | .strList xs =>
    "[" ++ String.intercalate ", " (xs.map (fun x => "\"" ++ x ++ "\"")) ++ "]"

/-- `GraphQlQueryItem._filters_to_string` (graphql.py lines 234-257). -/
def filters_to_string (filters : List (String × FilterValue)) : String :=
  if filters.isEmpty then ""
  else
    "(" ++
      String.intercalate ", " (filters.map (fun kv => filterEntryToString kv.1 kv.2))
      ++ ")"

/-- A `GraphQlQueryItem`: field name, `has_edges` flag, filters and
children.  `offset` is the constant 2 inherited from the root query. -/
inductive QItem where
  | mk (name : String) (has_edges : Bool)
      (filters : List (String × FilterValue)) (children : List QItem)

/-- Field name of an item. -/
def QItem.name : QItem → String
  | .mk n _ _ _ => n

/-- `has_edges` flag of an item. -/
def QItem.hasEdges : QItem → Bool
  | .mk _ he _ _ => he

/-- Filters of an item. -/
def QItem.filters : QItem → List (String × FilterValue)
  | .mk _ _ fs _ => fs

/-- Children of an item. -/
def QItem.children : QItem → List QItem
  | .mk _ _ _ cs => cs

/-- `indent * " "`. -/
def spaces (n : Nat) : String :=
  String.mk (List.replicate n ' ')

mutual

/-- `GraphQlQueryItem.calculate_query` (graphql.py lines 259-287), with
the item's `indent` (derived from the parent chain) passed explicitly:
a childless item with `has_edges` raises `ValueError`, a childless item
renders its header line, otherwise the children render between braces,
inside an `edges { node { ... } }` shell when `has_edges` is set.
Children are indented by `offset = 2`, plus `2 * offset` under an edged
item (`child_indent`). -/
def QItem.calc : Nat → QItem → Except PyErr String
  | indent, .mk name has_edges filters children =>
    let offsetStr := spaces indent
    let header := offsetStr ++ name ++ filters_to_string filters
    if children.isEmpty then
      if has_edges then
        .error (.valueError "Edged item don't have specified child fields")
      else
        .ok header
    else
      let childIndent := indent + (if has_edges then 4 else 0) + 2
      match QItem.calcList childIndent children with
      | .error e => .error e
      | .ok rows =>
        let edgesOffset := offsetStr ++ spaces 2
        let nodeOffset := edgesOffset ++ spaces 2
        let middle :=
          if has_edges then
            [edgesOffset ++ "edges \x7b", nodeOffset ++ "node \x7b"] ++ rows ++
              [nodeOffset ++ "\x7d", edgesOffset ++ "\x7d"]
          else rows
        .ok (String.intercalate "\n" ((header ++ " \x7b") :: middle ++ [offsetStr ++ "\x7d"]))

/-- The `for field in self._children` loop of `calculate_query`: render
each child in order, propagating the first raised exception. -/
def QItem.calcList : Nat → List QItem → Except PyErr (List String)
  | _, [] => .ok []
  | indent, c :: rest =>
    match QItem.calc indent c with
    | .error e => .error e
    | .ok s =>
      match QItem.calcList indent rest with
      | .error e => .error e
      | .ok ss => .ok (s :: ss)

end

mutual

/-- An item (or one of its descendants) is an edged item with no
children, i.e. rendering it is guaranteed to raise. -/
def QItem.badEdge : QItem → Bool
  | .mk _ has_edges _ children =>
    (has_edges && children.isEmpty) || QItem.anyBadEdge children

/-- `badEdge` somewhere in a list of items. -/
def QItem.anyBadEdge : List QItem → Bool
  | [] => false
  | c :: rest => QItem.badEdge c || QItem.anyBadEdge rest

end

/-- A declared variable type as received by `add_variable`: callers pass
either the Python type object `str` itself or some other object — in this
code base the plain string `"String!"`. -/
inductive VarType where
  | tyStr
  | strLit (s : String)
deriving DecidableEq, Repr

/-- `value_type_to_string` (graphql.py lines 78-81): `value_type in
six.string_types` is membership (by equality) in the tuple `(str,)`, so
only the type object `str` itself converts; anything else — including the
string value `"String!"` — raises `TypeError`. -/
def value_type_to_string : VarType → Except PyErr String
  | .tyStr => .ok "String"
  | .strLit s => .error (.typeError ("Unknown conversion for " ++ s))

/-- A `GraphQlQuery`: name, declared variables in insertion order (the
bound runtime values never matter to rendering), top-level children. -/
structure GQuery where
  name : String
  varDecls : List (String × VarType)
  children : List QItem

/-- The variable-rendering loop of `GraphQlQuery.calculate_query`
(graphql.py lines 158-164): `"{}: {}!".format(variable, type_string)`
where the variable formats as `$name`; the first unconvertible type
raises. -/
def renderVariables : List (String × VarType) → Except PyErr (List String)
  | [] => .ok []
  | (k, vt) :: rest =>
    match value_type_to_string vt with
    | .error e => .error e
    | .ok ts =>
      match renderVariables rest with
      | .error e => .error e
      | .ok rs => .ok (("$" ++ k ++ ": " ++ ts ++ "!") :: rs)

/-- `GraphQlQuery.calculate_query` (graphql.py lines 154-177): raises
`ValueError` when no field was added, then renders the variable
declarations (which may raise `TypeError`), then the children at indent
`offset = 2`. -/
def GQuery.calculate_query (q : GQuery) : Except PyErr String :=
  if q.children.isEmpty then .error (.valueError "Missing fields to query")
  else
    match renderVariables q.varDecls with
    | .error e => .error e
    | .ok vars =>
      let varsStr := if vars.isEmpty then "" else "(" ++ String.intercalate "," vars ++ ")"
      let header := "query " ++ q.name ++ varsStr
      match QItem.calcList 2 q.children with
      | .error e => .error e
      | .ok rows =>
        .ok (String.intercalate "\n" ((header ++ " \x7b") :: rows ++ ["\x7d"]))

/-- Python truthiness of an optional bool argument (`None` and `False`
are falsy). -/
def pyTruthy : Option Bool → Bool
  | some true => true
  | _ => false

/-- The `x = set(x); if not x: return []` normalization applied to each
optional iterable filter argument: `true` exactly when the argument was
passed and is empty (the set of an iterable is empty iff the iterable
is). -/
def emptyFilter {α : Type} : Option (List α) → Bool
  | none => false
  | some l => l.isEmpty

/-- Modelled from the spec: `DEFAULT_FOLDER_FIELDS`, a module-level
default field-set constant imported from `constants.py`, which is not
part of the sources under study; its exact contents are never inspected
by the code under study, only unioned into the requested field set. -/
def DEFAULT_FOLDER_FIELDS : List String := ["id", "name", "parentId", "path", "active"]

/-- Modelled from the spec: `DEFAULT_V3_FOLDER_FIELDS` default field-set
constant from `constants.py` (not in the sources under study). -/
def DEFAULT_V3_FOLDER_FIELDS : List String := ["id", "name", "parentId", "path", "active", "tasks"]

/-- Modelled from the spec: `DEFAULT_VERSION_FIELDS` default field-set
constant from `constants.py` (not in the sources under study). -/
def DEFAULT_VERSION_FIELDS : List String := ["id", "version", "subsetId", "active"]

/-- Modelled from the spec: `DEFAULT_REPRESENTATION_FIELDS` default
field-set constant from `constants.py` (not in the sources under
study). -/
def DEFAULT_REPRESENTATION_FIELDS : List String := ["id", "name", "versionId", "active"]

/-- `if not fields: fields = default` — a `None` or empty field list
falls back to the per-entity default field set. -/
def fieldsOrDefault (fields : Option (List String)) (default : List String) : List String :=
  match fields with
  | none => default
  | some fs => if fs.isEmpty then default else fs

/-- The parent-ids rewriting of `get_v4_folders` (entities.py lines
177-187) and `get_v4_folders_tasks` (lines 342-352): if `None` is in the
set, remove it and add `"root"`; then, if the project's own name is in
the set, remove it and add `"root"`. -/
def normalize_parent_ids (project_name : String) (s : Finset (Option String)) :
    Finset (Option String) :=
  let s1 := if none ∈ s then insert (some "root") (s.erase none) else s
  if some project_name ∈ s1 then insert (some "root") (s1.erase (some project_name)) else s1

/-- The filter variables bound by `get_v4_folders` /
`get_v4_folders_tasks`; a `none` field means the filter key is absent
from the `filters` dict.  Entries of `parentFolderIds` are kept in the
Python value space `Option String` (the caller may pass `None`
entries). -/
structure FoldersFilters where
  projectName : String
  folderIds : Option (Finset String) := none
  folderPaths : Option (Finset String) := none
  folderNames : Option (Finset String) := none
  parentFolderIds : Option (Finset (Option String)) := none
deriving DecidableEq

/-- Everything `get_v4_folders` (entities.py lines 115-207) computes
before touching the connection: `none` models the early `return []`
(empty result, no query built or executed), `some (filters, fields)`
models proceeding to build and run the folders query with those filter
variables and that field selection. -/
def get_v4_folders_plan (project_name : String)
    (folder_ids folder_paths folder_names : Option (List String))
    (parent_ids : Option (List (Option String)))
    (active : Option Bool) (fields : Option (List String)) :
    Option (FoldersFilters × Finset String) :=
  if project_name = "" then none
  else if emptyFilter folder_ids || emptyFilter folder_paths ||
      emptyFilter folder_names || emptyFilter parent_ids then none
  else
    let filters : FoldersFilters := {
      projectName := project_name
      folderIds := folder_ids.map List.toFinset
      folderPaths := folder_paths.map List.toFinset
      folderNames := folder_names.map List.toFinset
      parentFolderIds :=
        parent_ids.map (fun l => normalize_parent_ids project_name l.toFinset) }
    let fieldSet := (fieldsOrDefault fields DEFAULT_FOLDER_FIELDS).toFinset
    let fieldSet := if active.isSome then insert "active" fieldSet else fieldSet
    some (filters, fieldSet)

/-- Everything `get_v4_folders_tasks` (entities.py lines 276-376)
computes before touching the connection; identical to
`get_v4_folders_plan` except for the default field set. -/
def get_v4_folders_tasks_plan (project_name : String)
    (folder_ids folder_paths folder_names : Option (List String))
    (parent_ids : Option (List (Option String)))
    (active : Option Bool) (fields : Option (List String)) :
    Option (FoldersFilters × Finset String) :=
  if project_name = "" then none
  else if emptyFilter folder_ids || emptyFilter folder_paths ||
      emptyFilter folder_names || emptyFilter parent_ids then none
  else
    let filters : FoldersFilters := {
      projectName := project_name
      folderIds := folder_ids.map List.toFinset
      folderPaths := folder_paths.map List.toFinset
      folderNames := folder_names.map List.toFinset
      parentFolderIds :=
        parent_ids.map (fun l => normalize_parent_ids project_name l.toFinset) }
    let fieldSet := (fieldsOrDefault fields DEFAULT_V3_FOLDER_FIELDS).toFinset
    let fieldSet := if active.isSome then insert "active" fieldSet else fieldSet
    some (filters, fieldSet)

/-- The filter variables bound by `get_v4_tasks`. -/
structure TasksFilters where
  projectName : String
  taskIds : Option (Finset String) := none
  taskNames : Option (Finset String) := none
  taskTypes : Option (Finset String) := none
  folderIds : Option (Finset String) := none
deriving DecidableEq

/-- Everything `get_v4_tasks` (entities.py lines 210-273) computes before
touching the connection. -/
def get_v4_tasks_plan (project_name : String)
    (task_ids task_names task_types folder_ids : Option (List String))
    (active : Option Bool) (fields : Option (List String)) :
    Option (TasksFilters × Finset String) :=
  if project_name = "" then none
  else if emptyFilter task_ids || emptyFilter task_names ||
      emptyFilter task_types || emptyFilter folder_ids then none
  else
    let filters : TasksFilters := {
      projectName := project_name
      taskIds := task_ids.map List.toFinset
      taskNames := task_names.map List.toFinset
      taskTypes := task_types.map List.toFinset
      folderIds := folder_ids.map List.toFinset }
    let fieldSet := (fieldsOrDefault fields DEFAULT_FOLDER_FIELDS).toFinset
    let fieldSet := if active.isSome then insert "active" fieldSet else fieldSet
    some (filters, fieldSet)

/-- The filter variables bound by `get_v4_versions`; the three special
mode flags are `some true` when the corresponding key was put into the
`filters` dict and `none` when the key is absent. -/
structure VersionsFilters where
  projectName : String
  versionIds : Option (Finset String) := none
  subsetIds : Option (Finset String) := none
  versions : Option (Finset Int) := none
  heroOnly : Option Bool := none
  heroOrLatestOnly : Option Bool := none
  latestOnly : Option Bool := none
deriving DecidableEq

/-- Everything `get_v4_versions` (entities.py lines 379-457) computes
before touching the connection: the empty-iterable short-circuits, the
`hero`/`standard`/`latest` mode selection (`if hero and not standard`
/ `elif hero and latest` / `elif latest`), and the forced inclusion of
`id` and `version` in the field selection. -/
def get_v4_versions_plan (project_name : String)
    (version_ids subset_ids : Option (List String)) (versions : Option (List Int))
    (hero standard : Bool) (latest : Option Bool) (fields : Option (List String)) :
    Option (VersionsFilters × Finset String) :=
  let fields0 := fieldsOrDefault fields DEFAULT_VERSION_FIELDS
  if emptyFilter version_ids || emptyFilter subset_ids || emptyFilter versions then none
  else if !hero && !standard then none
  else
    let base : VersionsFilters := {
      projectName := project_name
      versionIds := version_ids.map List.toFinset
      subsetIds := subset_ids.map List.toFinset
      versions := versions.map List.toFinset }
    let filters :=
      if hero && !standard then { base with heroOnly := some true }
      else if hero && pyTruthy latest then { base with heroOrLatestOnly := some true }
      else if pyTruthy latest then { base with latestOnly := some true }
      else base
    some (filters, fields0.toFinset ∪ {"id", "version"})

/-- The filter variables bound by `get_v4_representations`. -/
structure ReprFilters where
  projectName : String
  representationIds : Option (Finset String) := none
  versionIds : Option (Finset String) := none
  representationNames : Option (Finset String) := none
deriving DecidableEq

/-- Everything `get_v4_representations` (entities.py lines 460-549)
computes before touching the connection.  Note the source checks
`representation_names` / `version_ids` for emptiness only in the `else`
branch taken when `names_by_version_ids` is `None`; when the mapping is
given it alone is expanded into the version-id and name sets. -/
def get_v4_representations_plan (project_name : String)
    (representation_ids representation_names version_ids : Option (List String))
    (names_by_version_ids : Option (List (String × List String)))
    (active : Option Bool) (fields : Option (List String)) :
    Option (ReprFilters × Finset String) :=
  let fields0 := (fieldsOrDefault fields DEFAULT_REPRESENTATION_FIELDS).toFinset
  let fieldSet := if active.isSome then insert "active" fields0 else fields0
  if emptyFilter representation_ids then none
  else
    let expanded : Option (Option (Finset String) × Option (Finset String)) :=
      match names_by_version_ids with
      | some nbvi =>
        let vidsF : Finset String := (nbvi.map Prod.fst).toFinset
        let namesF : Finset String := nbvi.foldl (fun acc p => acc ∪ p.2.toFinset) ∅
        if vidsF = ∅ ∨ namesF = ∅ then none
        else some (some vidsF, some namesF)
      | none =>
        if emptyFilter representation_names || emptyFilter version_ids then none
        else some (version_ids.map List.toFinset, representation_names.map List.toFinset)
    match expanded with
    | none => none
    | some (vidsFilter, namesFilter) =>
      let filters : ReprFilters := {
        projectName := project_name
        representationIds := representation_ids.map List.toFinset
        versionIds :=
          match vidsFilter with
          | some s => if s = ∅ then none else some s
          | none => none
        representationNames :=
          match namesFilter with
          | some s => if s = ∅ then none else some s
          | none => none }
      some (filters, fieldSet)

/-- A representation record as the server returns it, restricted to the
fields the post-filter looks at. -/
structure ReprRecord where
  id : String
  active : Bool
deriving DecidableEq, Repr

/-- Python `==` between the boolean `repre["active"]` field and the
`active` argument (`None` or a bool): a bool never equals `None`. -/
def pyEqBoolOpt (b : Bool) : Option Bool → Bool
  | none => false
  | some c => b == c

/-- The client-side active post-filter of `get_v4_representations`
(entities.py lines 551-558), applied to the records the query returned:
as written the source filters by `repre["active"] == active` exactly when
`active is None`, and returns the list unfiltered otherwise. -/
def get_v4_representations_post (active : Option Bool)
    (representations : List ReprRecord) : List ReprRecord :=
  if active = none then
    representations.filter (fun r => pyEqBoolOpt r.active active)
  else representations

/-- A version record as the server returns it, restricted to the fields
`_get_versions` looks at. -/
structure VRec where
  id : String
  version : Int
  subsetId : String
deriving DecidableEq, Repr

/-- `hero_eq_by_subset_id[subset_id]` of `_get_versions` (entities.py
lines 757-759): the defaultdict grouping of the secondary lookup's
records by subset id preserves relative order, so the group of one
subset id is the sublist of records carrying it. -/
def hero_eq_by_subset_id (hero_eq_versions : List VRec) (subset_id : String) : List VRec :=
  hero_eq_versions.filter (fun v => v.subsetId == subset_id)

/-- The `version_id` computed for one hero version by `_get_versions`
(entities.py lines 761-768): the id of the first record in the hero
version's subset group whose version number equals the absolute value of
the hero's negative version number, `None` when there is no match. -/
def resolve_hero_version_id (hero_eq_versions : List VRec) (hero_version : VRec) :
    Option String :=
  ((hero_eq_by_subset_id hero_eq_versions hero_version.subsetId).find?
      (fun v => v.version == |hero_version.version|)).map VRec.id

/-- The post-processing of `_get_versions` (entities.py lines 734-772),
with the primary query result `queried_versions` and the secondary batch
lookup result `hero_eq_versions` passed in, and the
`convert_v4_version_to_v3` converter (which lives outside the sources
under study) abstracted as `conv`.  Records with a negative version are
diverted to `hero_versions`; for each of them the source builds
`conv_hero = conv(hero_version)` and attaches the resolved `version_id`
(modelled as the pair below) — and then discards the pair: the `return`
statement returns only the converted non-hero `versions` list. -/
def _get_versions_result {β : Type} (conv : VRec → β)
    (queried_versions hero_eq_versions : List VRec) : List β :=
  let versions := (queried_versions.filter (fun v => !decide (v.version < 0))).map conv
  let hero_versions := queried_versions.filter (fun v => decide (v.version < 0))
  let _conv_heroes :=
    hero_versions.map (fun hv => (conv hv, resolve_hero_version_id hero_eq_versions hv))
  versions

/-- Python `lst[0]`. -/
def listIndexZero {α : Type} : List α → Except PyErr α
  | [] => .error (.indexError "list index out of range")
  | x :: _ => .ok x

/-- `get_last_version_by_subset_id` (entities.py lines 1040-1052) as a
function of the list the underlying `_get_versions(...)` lookup produced:
the source runs `if not versions: return versions[0]` and then
`return None`, so the `versions[0]` indexing is only ever attempted on an
empty list. -/
def get_last_version_by_subset_id {α : Type} (versions : List α) :
    Except PyErr (Option α) :=
  if versions.isEmpty then
    match listIndexZero versions with
    | .error e => .error e
    | .ok v => .ok (some v)
  else .ok none

/-- The `parentFolderIds` filter variable a folders plan would bind
(empty when the plan short-circuits or the filter key is absent). -/
def plannedParentFolderIds : Option (FoldersFilters × Finset String) → Finset (Option String)
  | none => ∅
  | some (f, _) => f.parentFolderIds.getD ∅

/-! ## Theorems -/

/-- C1: the claim states that `get_v4_representations` post-filters by
exact boolean match when `active=True`/`active=False` and returns all
queried records when `active=None`.  The source (entities.py lines
552-557) has the condition inverted: it post-filters exactly when
`active is None` — and then `repre["active"] == None` is false for every
boolean field, so everything is dropped — and does not filter at all when
a boolean was requested.  At the failing input `active=True` with a
queried record whose `active` field is `False`, the record is returned;
with `active=None`, nonempty query results are emptied out. -/
theorem C1_representations_active_postfilter_inverted :
    get_v4_representations_post (some true) [⟨"r1", false⟩] = [⟨"r1", false⟩] ∧
    get_v4_representations_post (some false) [⟨"r2", true⟩] = [⟨"r2", true⟩] ∧
    get_v4_representations_post none [⟨"r1", false⟩, ⟨"r2", true⟩] = [] := by
  refine ⟨rfl, rfl, ?_⟩
  rfl

/-- C2: the claim states `get_last_version_by_subset_id` returns the
first queried version when the lookup is non-empty and `None` when it is
empty, never raising for "not found".  The source (entities.py lines
1050-1052) reads `if not versions: return versions[0]` followed by
`return None`: on an empty lookup it indexes into the empty list and
raises `IndexError`, and on a non-empty lookup it returns `None`. -/
theorem C2_last_version_by_subset_id_inverted_guard :
    get_last_version_by_subset_id ([] : List Nat) =
      .error (.indexError "list index out of range") ∧
    get_last_version_by_subset_id [(7 : Nat)] = .ok none := ⟨rfl, rfl⟩

/-- C3: the claim states the converted hero record (carrying the resolved
`version_id`) is part of `_get_versions`' observable result.  The
resolution itself works as claimed — for a hero version
`version = -3, subsetId = "S"` and a secondary-lookup record
`version = 3, subsetId = "S", id = "V123"` the computed `version_id` is
`"V123"`, and `None` when no match exists — but the loop at entities.py
lines 761-770 builds `conv_hero` and never appends it anywhere: the
function returns only the converted non-hero `versions` list, so at the
failing input the hero record is absent from the result. -/
theorem C3_converted_hero_record_discarded :
    resolve_hero_version_id [⟨"V123", 3, "S"⟩] ⟨"H1", -3, "S"⟩ = some "V123" ∧
    resolve_hero_version_id [] ⟨"H1", -3, "S"⟩ = none ∧
    _get_versions_result (fun v => v) [⟨"H1", -3, "S"⟩] [⟨"V123", 3, "S"⟩] = [] := by
  refine ⟨rfl, rfl, rfl⟩

/-- C9: the claim (and the wire grammar `field(arg: value, ...)`) states
a non-string iterable filter value renders as `key: ["item1", "item2"]`
— the bracketed quoted list preceded by the filter key and a colon.  In
the source (graphql.py line 243) the iterable branch formats only
`"[{}]"` and never prepends `key`, so the rendered parenthetical is
`(["item1", "item2"])` with no key; the non-iterable branch does render
`key: value` as claimed. -/
theorem C9_list_filter_rendered_without_key :
    filters_to_string [("ids", .strList ["item1", "item2"])] =
      "([\"item1\", \"item2\"])" ∧
    filters_to_string [("name", .str "$projectName"), ("heroOnly", .boolVal true)] =
      "(name: $projectName, heroOnly: True)" := ⟨rfl, rfl⟩

/-- C5 counterexample: `get_v4_representations` called with
`representation_names=[]` (an empty iterable filter argument) together
with a non-`None` `names_by_version_ids` mapping does NOT short-circuit:
the source checks `representation_names` only in the branch taken when
`names_by_version_ids is None`, so a query is built and executed. -/
theorem C5_counterexample_names_by_version_ids_overrides :
    (get_v4_representations_plan "proj1" none (some []) none
      (some [("v1", ["main"])]) none none).isSome = true := by
  rfl

/-- C7 counterexample: for a project literally named `"root"`, calling
`get_v4_folders` with `parent_ids=["root"]` (an entry equal to the
project's own name) leaves the bound `parentFolderIds` variable
containing `"root"` — which IS the project's own name — so the claim's
"no project-name entry remains in that variable" fails at this input. -/
theorem C7_counterexample_project_named_root :
    some "root" ∈ plannedParentFolderIds
      (get_v4_folders_plan "root" none none none (some [some "root"]) none none) ∧
    (get_v4_folders_plan "root" none none none (some [some "root"]) none none).isSome
      = true := by
  constructor
  · decide
  · rfl

/-- C10 counterexample: a query that declares a variable whose type is
the string `"String!"` (not the type `str`) but has zero child fields
raises `ValueError("Missing fields to query")` when rendered — not
`TypeError` — because `calculate_query` checks for children before it
converts any variable type.  So "raises TypeError for every query that
declares at least one variable whose declared type is not str" fails
as stated. -/
theorem C10_counterexample_childless_query :
    GQuery.calculate_query ⟨"X", [("projectName", .strLit "String!")], []⟩ =
      .error (.valueError "Missing fields to query") := rfl

/-- C5 amended: in every embedded v4 entity query function, an iterable
filter argument passed as an empty iterable makes the call yield an empty
collection without building or executing a query (`plan = none`) — with
the one exception the counterexample exhibits: `get_v4_representations`
checks `representation_names` / `version_ids` for emptiness only when
`names_by_version_ids` is `None` (so those two conjuncts below carry
`names_by_version_ids = none`, and an empty `names_by_version_ids`
mapping itself also short-circuits). -/
theorem C5_empty_iterable_filters_short_circuit :
    (∀ pn fp fn pids act flds,
      get_v4_folders_plan pn (some []) fp fn pids act flds = none) ∧
    (∀ pn fi fn pids act flds,
      get_v4_folders_plan pn fi (some []) fn pids act flds = none) ∧
    (∀ pn fi fp pids act flds,
      get_v4_folders_plan pn fi fp (some []) pids act flds = none) ∧
    (∀ pn fi fp fn act flds,
      get_v4_folders_plan pn fi fp fn (some []) act flds = none) ∧
    (∀ pn fp fn pids act flds,
      get_v4_folders_tasks_plan pn (some []) fp fn pids act flds = none) ∧
    (∀ pn fi fn pids act flds,
      get_v4_folders_tasks_plan pn fi (some []) fn pids act flds = none) ∧
    (∀ pn fi fp pids act flds,
      get_v4_folders_tasks_plan pn fi fp (some []) pids act flds = none) ∧
    (∀ pn fi fp fn act flds,
      get_v4_folders_tasks_plan pn fi fp fn (some []) act flds = none) ∧
    (∀ pn tn tt fi act flds,
      get_v4_tasks_plan pn (some []) tn tt fi act flds = none) ∧
    (∀ pn ti tt fi act flds,
      get_v4_tasks_plan pn ti (some []) tt fi act flds = none) ∧
    (∀ pn ti tn fi act flds,
      get_v4_tasks_plan pn ti tn (some []) fi act flds = none) ∧
    (∀ pn ti tn tt act flds,
      get_v4_tasks_plan pn ti tn tt (some []) act flds = none) ∧
    (∀ pn sids vs hero standard latest flds,
      get_v4_versions_plan pn (some []) sids vs hero standard latest flds = none) ∧
    (∀ pn vids vs hero standard latest flds,
      get_v4_versions_plan pn vids (some []) vs hero standard latest flds = none) ∧
    (∀ pn vids sids hero standard latest flds,
      get_v4_versions_plan pn vids sids (some ([] : List Int)) hero standard latest flds = none) ∧
    (∀ pn rn vids nbvi act flds,
      get_v4_representations_plan pn (some []) rn vids nbvi act flds = none) ∧
    (∀ pn ri vids act flds,
      get_v4_representations_plan pn ri (some []) vids none act flds = none) ∧
    (∀ pn ri rn act flds,
      get_v4_representations_plan pn ri rn (some []) none act flds = none) ∧
    (∀ pn ri rn vids act flds,
      get_v4_representations_plan pn ri rn vids (some []) act flds = none) := by
  refine ⟨?_, ?_, ?_, ?_, ?_, ?_, ?_, ?_, ?_, ?_, ?_, ?_, ?_, ?_, ?_, ?_, ?_, ?_, ?_⟩ <;>
    intros <;>
    simp [get_v4_folders_plan, get_v4_folders_tasks_plan, get_v4_tasks_plan,
      get_v4_versions_plan, get_v4_representations_plan, emptyFilter]

/-- C6: `get_v4_versions` chooses the server filter mode by exactly the
claimed priority order — `hero ∧ ¬standard` binds `heroOnly=True`;
otherwise `hero` with truthy `latest` binds `heroOrLatestOnly=True`;
otherwise truthy `latest` binds `latestOnly=True`; otherwise none of the
three keys is bound — and `hero=False ∧ standard=False` short-circuits to
an empty result with no query built. -/
theorem C6_versions_filter_mode_priority :
    ∀ (pn : String) (vids sids : Option (List String)) (vs : Option (List Int))
      (hero standard : Bool) (latest : Option Bool) (flds : Option (List String)),
      (hero = false → standard = false →
        get_v4_versions_plan pn vids sids vs hero standard latest flds = none) ∧
      ∀ f fs, get_v4_versions_plan pn vids sids vs hero standard latest flds = some (f, fs) →
        (hero = true → standard = false →
          f.heroOnly = some true ∧ f.heroOrLatestOnly = none ∧ f.latestOnly = none) ∧
        (¬(hero = true ∧ standard = false) → hero = true → pyTruthy latest = true →
          f.heroOrLatestOnly = some true ∧ f.heroOnly = none ∧ f.latestOnly = none) ∧
        (¬(hero = true ∧ standard = false) → ¬(hero = true ∧ pyTruthy latest = true) →
          pyTruthy latest = true →
          f.latestOnly = some true ∧ f.heroOnly = none ∧ f.heroOrLatestOnly = none) ∧
        (¬(hero = true ∧ standard = false) → pyTruthy latest = false →
          f.heroOnly = none ∧ f.heroOrLatestOnly = none ∧ f.latestOnly = none) := by
  intro pn vids sids vs hero standard latest flds
  constructor
  · rintro rfl rfl
    simp [get_v4_versions_plan]
  · intro f fs hplan
    cases hero <;> cases standard <;> cases hpt : pyTruthy latest <;>
      simp [get_v4_versions_plan, hpt] at hplan ⊢ <;>
      obtain ⟨-, hf, -⟩ := hplan <;>
      simp [← hf]

/-- Witness for C6 at `hero=True, standard=False`: the plan runs a query
whose filters bind `heroOnly=True` and neither other mode key. -/
theorem C6_witness :
    get_v4_versions_plan "proj1" none none none true false none none =
      some (⟨"proj1", none, none, none, some true, none, none⟩,
        DEFAULT_VERSION_FIELDS.toFinset ∪ {"id", "version"}) ∧
    ((⟨"proj1", none, none, none, some true, none, none⟩ : VersionsFilters).heroOnly
        = some true ∧
      (⟨"proj1", none, none, none, some true, none, none⟩ : VersionsFilters).heroOrLatestOnly
        = none ∧
      (⟨"proj1", none, none, none, some true, none, none⟩ : VersionsFilters).latestOnly
        = none) :=
  ⟨by rfl,
    ((C6_versions_filter_mode_priority "proj1" none none none true false none none).2
      _ _ (by rfl)).1 rfl rfl⟩

/-- If the parent-id set contained `None` or the project's own name, the
rewritten set contains the sentinel `"root"`. -/
theorem normalize_parent_ids_root_mem (pn : String) (s : Finset (Option String))
    (h : none ∈ s ∨ some pn ∈ s) :
    some "root" ∈ normalize_parent_ids pn s := by
  simp only [normalize_parent_ids]
  split_ifs with h1 h2 h2 <;> simp_all

/-- The rewritten parent-id set never contains `None`. -/
theorem normalize_parent_ids_none_not_mem (pn : String) (s : Finset (Option String)) :
    none ∉ normalize_parent_ids pn s := by
  simp only [normalize_parent_ids]
  split_ifs with h1 h2 h2 <;> simp_all

/-- For a project not itself named `"root"`, the rewritten parent-id set
does not contain the project's own name. -/
theorem normalize_parent_ids_pn_not_mem (pn : String) (s : Finset (Option String))
    (hpn : pn ≠ "root") :
    some pn ∉ normalize_parent_ids pn s := by
  simp only [normalize_parent_ids]
  split_ifs with h1 h2 h2 <;> simp_all

/-- C7 amended: in `get_v4_folders` and `get_v4_folders_tasks`, whenever
`parent_ids` is a non-empty iterable containing `None` or the project's
own name and the call proceeds to build a query, the bound
`parentFolderIds` variable contains the sentinel `"root"`, contains no
`None` entry, and — unless the project is itself named `"root"`, in which
case the sentinel coincides with the project name (see the
counterexample) — contains no project-name entry. -/
theorem C7_parent_ids_normalized :
    ∀ (pn : String) (fi fp fn : Option (List String)) (l : List (Option String))
      (act : Option Bool) (flds : Option (List String)) (f : FoldersFilters)
      (fs : Finset String),
      (get_v4_folders_plan pn fi fp fn (some l) act flds = some (f, fs) →
        (none ∈ l ∨ some pn ∈ l) →
        ∃ s, f.parentFolderIds = some s ∧ some "root" ∈ s ∧ none ∉ s ∧
          (pn ≠ "root" → some pn ∉ s)) ∧
      (get_v4_folders_tasks_plan pn fi fp fn (some l) act flds = some (f, fs) →
        (none ∈ l ∨ some pn ∈ l) →
        ∃ s, f.parentFolderIds = some s ∧ some "root" ∈ s ∧ none ∉ s ∧
          (pn ≠ "root" → some pn ∉ s)) := by
  intro pn fi fp fn l act flds f fs
  constructor <;>
  · intro hplan hmem
    first
      | simp [get_v4_folders_plan] at hplan
      | simp [get_v4_folders_tasks_plan] at hplan
    obtain ⟨-, -, hf, -⟩ := hplan
    refine ⟨normalize_parent_ids pn l.toFinset, ?_, ?_, ?_, ?_⟩
    · simp [← hf]
    · exact normalize_parent_ids_root_mem pn l.toFinset (by simpa using hmem)
    · exact normalize_parent_ids_none_not_mem pn l.toFinset
    · intro hpn
      exact normalize_parent_ids_pn_not_mem pn l.toFinset hpn

/-- Witness for C7 at `project="proj1"`, `parent_ids=[None]`. -/
theorem C7_witness :
    (none ∈ [(none : Option String)] ∨ some "proj1" ∈ [(none : Option String)]) ∧
    ∃ s, (FoldersFilters.mk "proj1" none none none
        (some (normalize_parent_ids "proj1" [(none : Option String)].toFinset))).parentFolderIds
        = some s ∧ some "root" ∈ s ∧ none ∉ s ∧ ("proj1" ≠ "root" → some "proj1" ∉ s) :=
  ⟨Or.inl (by simp),
    (C7_parent_ids_normalized "proj1" none none none [none] none none
      (FoldersFilters.mk "proj1" none none none
        (some (normalize_parent_ids "proj1" [(none : Option String)].toFinset)))
      DEFAULT_FOLDER_FIELDS.toFinset).1 (by rfl) (Or.inl (by simp))⟩

/-- Rendering the variable declarations raises `TypeError` as soon as the
list contains a variable whose declared type is not the type `str`. -/
theorem renderVariables_typeError (l : List (String × VarType))
    (h : ∃ kv ∈ l, kv.2 ≠ VarType.tyStr) :
    ∃ msg, renderVariables l = .error (.typeError msg) := by
  induction l with
  | nil => simp at h
  | cons kv rest ih =>
    obtain ⟨k, vt⟩ := kv
    cases vt with
    | strLit s =>
      exact ⟨"Unknown conversion for " ++ s, rfl⟩
    | tyStr =>
      have hrest : ∃ kv ∈ rest, kv.2 ≠ VarType.tyStr := by
        obtain ⟨kv', hmem, hne⟩ := h
        rcases List.mem_cons.mp hmem with heq | hmem'
        · subst heq; simp at hne
        · exact ⟨kv', hmem', hne⟩
      obtain ⟨msg, hmsg⟩ := ih hrest
      exact ⟨msg, by simp [renderVariables, value_type_to_string, hmsg]⟩

/-- C10 amended: `calculate_query` raises `TypeError` for every query
that has at least one child field and declares at least one variable
whose declared type is not the Python type `str` itself (membership in
`six.string_types`); in particular the string value `"String!"` — as
passed by `version_is_latest` and the no-subset-ids branch of
`get_subset_families` — makes rendering such queries always raise.  (A
query with such a variable but zero child fields instead raises
`ValueError`, see the counterexample.) -/
theorem C10_nonstr_variable_type_raises_typeerror :
    ∀ (q : GQuery), q.children ≠ [] →
      (∃ kv ∈ q.varDecls, kv.2 ≠ VarType.tyStr) →
      ∃ msg, q.calculate_query = .error (.typeError msg) := by
  intro q hch hbad
  obtain ⟨msg, hmsg⟩ := renderVariables_typeError q.varDecls hbad
  refine ⟨msg, ?_⟩
  unfold GQuery.calculate_query
  rw [if_neg (by simpa using hch), hmsg]

/-- Witness for C10 on a query shaped like `version_is_latest`'s: two
variables declared with the string `"String!"` as their type and a
non-empty field tree. -/
theorem C10_witness :
    ((GQuery.mk "VersionIsLatest"
        [("projectName", .strLit "String!"), ("versionId", .strLit "String!")]
        [.mk "project" false [] [.mk "id" false [] []]]).children ≠ []) ∧
    ∃ msg, (GQuery.mk "VersionIsLatest"
        [("projectName", .strLit "String!"), ("versionId", .strLit "String!")]
        [.mk "project" false [] [.mk "id" false [] []]]).calculate_query =
      .error (.typeError msg) :=
  ⟨by simp,
    C10_nonstr_variable_type_raises_typeerror _ (by simp)
      ⟨("projectName", .strLit "String!"), by simp, by simp⟩⟩

mutual

/-- A field item that renders successfully contains no edged node without
children anywhere in its subtree. -/
theorem calc_ok_no_badEdge : ∀ (ind : Nat) (it : QItem) (s : String),
    QItem.calc ind it = .ok s → QItem.badEdge it = false
  | ind, .mk n he fs cs, s => by
    intro h
    rw [QItem.calc] at h
    rw [QItem.badEdge]
    by_cases hcs : cs.isEmpty
    · rw [if_pos hcs] at h
      cases he with
      | true => simp at h
      | false =>
        have : cs = [] := by simpa [List.isEmpty_iff] using hcs
        subst this
        simp [QItem.anyBadEdge]
    · rw [if_neg hcs] at h
      rcases hlist : QItem.calcList (ind + (if he then 4 else 0) + 2) cs with e | rows
      · simp [hlist] at h
      · have := calcList_ok_no_badEdge _ cs rows hlist
        simp [this, hcs]

/-- A list of field items that renders successfully contains no edged
node without children anywhere. -/
theorem calcList_ok_no_badEdge : ∀ (ind : Nat) (l : List QItem) (ss : List String),
    QItem.calcList ind l = .ok ss → QItem.anyBadEdge l = false
  | _, [], _ => by intro _; rw [QItem.anyBadEdge]
  | ind, c :: rest, ss => by
    intro h
    rw [QItem.calcList] at h
    rcases hc : QItem.calc ind c with e | s1
    · simp [hc] at h
    · rcases hrest : QItem.calcList ind rest with e | ss'
      · simp [hc, hrest] at h
      · rw [QItem.anyBadEdge, calc_ok_no_badEdge ind c s1 hc,
          calcList_ok_no_badEdge ind rest ss' hrest]
        rfl

end

/-- A field node flagged `has_edges` with zero children raises the
`ValueError` of graphql.py lines 263-266 when rendered. -/
theorem calc_childless_edged_errors (ind : Nat) (it : QItem)
    (he : QItem.hasEdges it = true) (hc : QItem.children it = []) :
    QItem.calc ind it =
      .error (.valueError "Edged item don't have specified child fields") := by
  obtain ⟨n, heb, fs, cs⟩ := it
  simp [QItem.hasEdges] at he
  simp [QItem.children] at hc
  subst he hc
  rw [QItem.calc]
  simp

/-- C8: `calculate_query` fails with an error for every query with zero
child fields (the `ValueError` of graphql.py line 156) and for every
has-edges field node with zero children (the `ValueError` of lines
263-266, which propagates so that the whole rendering errors wherever
such a node occurs in the tree); and rendering succeeds only when the
query has at least one child and every has-edges node in the tree has at
least one child.  All of this happens inside the pure rendering step,
before any connection is used. -/
theorem C8_unsatisfiable_query_structure :
    (∀ q : GQuery, q.children = [] →
      q.calculate_query = .error (.valueError "Missing fields to query")) ∧
    (∀ (ind : Nat) (it : QItem), QItem.hasEdges it = true → QItem.children it = [] →
      QItem.calc ind it =
        .error (.valueError "Edged item don't have specified child fields")) ∧
    (∀ q : GQuery, QItem.anyBadEdge q.children = true →
      ∃ e, q.calculate_query = .error e) ∧
    (∀ (q : GQuery) (s : String), q.calculate_query = .ok s →
      q.children ≠ [] ∧ QItem.anyBadEdge q.children = false) := by
  have part4 : ∀ (q : GQuery) (s : String), q.calculate_query = .ok s →
      q.children ≠ [] ∧ QItem.anyBadEdge q.children = false := by
    intro q s h
    unfold GQuery.calculate_query at h
    by_cases hch : q.children.isEmpty
    · rw [if_pos hch] at h; simp at h
    · refine ⟨by simpa [List.isEmpty_iff] using hch, ?_⟩
      rw [if_neg hch] at h
      rcases hrv : renderVariables q.varDecls with e | vars
      · simp [hrv] at h
      · rcases hcl : QItem.calcList 2 q.children with e | rows
        · simp [hrv, hcl] at h
        · exact calcList_ok_no_badEdge 2 q.children rows hcl
  refine ⟨?_, calc_childless_edged_errors, ?_, part4⟩
  · intro q h
    unfold GQuery.calculate_query
    rw [if_pos (by simp [h])]
  · intro q hbad
    rcases hq : q.calculate_query with e | s
    · exact ⟨e, rfl⟩
    · have := (part4 q s hq).2
      rw [this] at hbad
      cases hbad


/-- Witness for C8: a childless query errors; a childless edged item
errors; a well-formed edged query renders successfully and accordingly
has children and no bad edged node. -/
theorem C8_witness :
    (GQuery.calculate_query ⟨"Q", [], []⟩ =
      .error (.valueError "Missing fields to query")) ∧
    (QItem.calc 2 (.mk "projects" true [] []) =
      .error (.valueError "Edged item don't have specified child fields")) ∧
    ((GQuery.mk "Q" [] [.mk "projects" true [] [.mk "id" false [] []]]).children ≠ [] ∧
      QItem.anyBadEdge
        (GQuery.mk "Q" [] [.mk "projects" true [] [.mk "id" false [] []]]).children
        = false) :=
  ⟨C8_unsatisfiable_query_structure.1 ⟨"Q", [], []⟩ rfl,
    C8_unsatisfiable_query_structure.2.1 2 (.mk "projects" true [] []) rfl rfl,
    C8_unsatisfiable_query_structure.2.2.2
      (GQuery.mk "Q" [] [.mk "projects" true [] [.mk "id" false [] []]])
      "query Q \x7b\n  projects \x7b\n    edges \x7b\n      node \x7b\n        id\n      \x7d\n    \x7d\n  \x7d\n\x7d"
      rfl⟩

/-- Membership in the leaves of a trie node, entrywise. -/
theorem mem_trieLeaves_node (m : List (String × FieldTrie)) (r : List String) :
    r ∈ trieLeaves (.node m) ↔
      ∃ p ∈ m, ∃ r', r = p.1 :: r' ∧ r' ∈ trieLeaves p.2 := by
  induction m with
  | nil => simp [trieLeaves]
  | cons q rest ih =>
    obtain ⟨k, sub⟩ := q
    rw [trieLeaves]
    simp only [List.mem_append, List.mem_map, ih, List.mem_cons]
    constructor
    · rintro (⟨r', hr', rfl⟩ | ⟨p, hp, r', hr, hmem⟩)
      · exact ⟨(k, sub), Or.inl rfl, r', rfl, hr'⟩
      · exact ⟨p, Or.inr hp, r', hr, hmem⟩
    · rintro ⟨p, hp | hp, r', hr, hmem⟩
      · subst hp
        exact Or.inl ⟨r', hmem, hr.symm⟩
      · exact Or.inr ⟨p, hp, r', hr, hmem⟩

/-- Every leaf path of a trie node is nonempty. -/
theorem ne_nil_of_mem_trieLeaves_node {m : List (String × FieldTrie)} {r : List String}
    (h : r ∈ trieLeaves (.node m)) : r ≠ [] := by
  obtain ⟨p, _, r', rfl, _⟩ := (mem_trieLeaves_node m r).mp h
  simp

/-- Membership in a dict after `value[k] = v`, for distinct keys. -/
theorem mem_setKey (m : List (String × FieldTrie)) (k : String) (v : FieldTrie)
    (hn : (m.map Prod.fst).Nodup) (p : String × FieldTrie) :
    p ∈ setKey m k v ↔ p = (k, v) ∨ (p ∈ m ∧ p.1 ≠ k) := by
  induction m with
  | nil => simp [setKey]
  | cons q rest ih =>
    obtain ⟨k', v'⟩ := q
    simp only [List.map_cons, List.nodup_cons] at hn
    obtain ⟨hk', hrest⟩ := hn
    rw [setKey]
    by_cases hkk : k' = k
    · subst hkk
      rw [if_pos rfl]
      simp only [List.mem_cons]
      constructor
      · rintro (rfl | hp)
        · exact Or.inl rfl
        · refine Or.inr ⟨Or.inr hp, ?_⟩
          intro he
          exact hk' (List.mem_map.mpr ⟨p, hp, he⟩)
      · rintro (rfl | ⟨hp | hp, hne⟩)
        · exact Or.inl rfl
        · subst hp; simp at hne
        · exact Or.inr hp
    · rw [if_neg hkk]
      simp only [List.mem_cons, ih hrest]
      constructor
      · rintro (rfl | rfl | ⟨hp, hne⟩)
        · exact Or.inr ⟨Or.inl rfl, hkk⟩
        · exact Or.inl rfl
        · exact Or.inr ⟨Or.inr hp, hne⟩
      · rintro (rfl | ⟨hp | hp, hne⟩)
        · exact Or.inr (Or.inl rfl)
        · subst hp; exact Or.inl rfl
        · exact Or.inr (Or.inr ⟨hp, hne⟩)

/-- `value[k] = v` keeps the key list, appending `k` when absent. -/
theorem map_fst_setKey (m : List (String × FieldTrie)) (k : String) (v : FieldTrie) :
    (setKey m k v).map Prod.fst =
      if k ∈ m.map Prod.fst then m.map Prod.fst else m.map Prod.fst ++ [k] := by
  induction m with
  | nil => simp [setKey]
  | cons q rest ih =>
    obtain ⟨k', v'⟩ := q
    rw [setKey]
    by_cases hkk : k' = k
    · subst hkk
      rw [if_pos rfl]
      simp
    · rw [if_neg hkk]
      simp only [List.map_cons, List.mem_cons]
      rw [ih]
      by_cases hk : k ∈ rest.map Prod.fst
      · rw [if_pos hk, if_pos (Or.inr hk)]
      · rw [if_neg hk, if_neg ?_]
        · simp
        · rintro (h | h)
          · exact hkk h.symm
          · exact hk h

/-- `value[k] = v` preserves key distinctness. -/
theorem nodup_setKey (m : List (String × FieldTrie)) (k : String) (v : FieldTrie)
    (hn : (m.map Prod.fst).Nodup) :
    ((setKey m k v).map Prod.fst).Nodup := by
  rw [map_fst_setKey]
  split_ifs with h
  · exact hn
  · simp [List.nodup_append, hn, h]

/-- For distinct keys, lookup succeeds exactly on the stored entries. -/
theorem lookupKey_eq_some (m : List (String × FieldTrie)) (k : String) (sub : FieldTrie)
    (hn : (m.map Prod.fst).Nodup) :
    lookupKey m k = some sub ↔ (k, sub) ∈ m := by
  induction m with
  | nil => simp [lookupKey]
  | cons q rest ih =>
    obtain ⟨k', v'⟩ := q
    simp only [List.map_cons, List.nodup_cons] at hn
    obtain ⟨hk', hrest⟩ := hn
    rw [lookupKey]
    by_cases hkk : k' = k
    · subst hkk
      rw [if_pos rfl]
      constructor
      · intro h
        obtain rfl : v' = sub := Option.some_inj.mp h
        exact List.mem_cons_self _ _
      · intro h
        rcases List.mem_cons.mp h with heq | hmem
        · have h2 := congrArg Prod.snd heq
          simp only at h2
          rw [h2]
        · exact absurd (List.mem_map.mpr ⟨(k', sub), hmem, rfl⟩) hk'
    · rw [if_neg hkk, ih hrest]
      simp only [List.mem_cons, Prod.mk.injEq]
      constructor
      · exact fun h => Or.inr h
      · rintro (⟨h1, -⟩ | h)
        · exact absurd h1.symm hkk
        · exact h

/-- Lookup fails exactly when the key is absent. -/
theorem lookupKey_eq_none (m : List (String × FieldTrie)) (k : String) :
    lookupKey m k = none ↔ k ∉ m.map Prod.fst := by
  induction m with
  | nil => simp [lookupKey]
  | cons q rest ih =>
    obtain ⟨k', v'⟩ := q
    rw [lookupKey]
    by_cases hkk : k' = k
    · subst hkk; simp
    · rw [if_neg hkk, ih]
      simp only [List.map_cons, List.mem_cons]
      constructor
      · intro h hor
        rcases hor with h1 | h2
        · exact hkk h1.symm
        · exact h h2
      · intro h hk
        exact h (Or.inr hk)

/-- `entriesWF` is the entrywise well-formedness of the values. -/
theorem entriesWF_iff (m : List (String × FieldTrie)) :
    entriesWF m ↔ ∀ p ∈ m, trieWF p.2 := by
  induction m with
  | nil => rw [entriesWF]; simp
  | cons p rest ih =>
    rw [entriesWF, ih]
    simp

/-- The empty dict node is well formed. -/
theorem trieWF_nil_node : trieWF (.node []) := by
  rw [trieWF]
  exact ⟨by simp, by rw [entriesWF]; trivial⟩

/-- The `ALL_SUBFIELDS` sentinel is well formed. -/
theorem trieWF_all : trieWF .all := by
  rw [trieWF]
  trivial

/-- One `fields_to_dict` loop iteration preserves well-formedness. -/
theorem insertParts_WF (h : List String) : ∀ (t : FieldTrie), trieWF t →
    ∀ (l : String), trieWF (insertParts t h l) := by
  induction h with
  | nil =>
    intro t ht l
    cases t with
    | all => rw [insertParts]; exact ht
    | node m =>
      rw [insertParts]
      rw [trieWF] at ht ⊢
      obtain ⟨hn, hwf⟩ := ht
      refine ⟨nodup_setKey m l _ hn, ?_⟩
      rw [entriesWF_iff] at hwf ⊢
      intro p hp
      rcases (mem_setKey m l _ hn p).mp hp with rfl | ⟨hpm, -⟩
      · exact trieWF_all
      · exact hwf p hpm
  | cons part rest ih =>
    intro t ht l
    cases t with
    | all => rw [insertParts]; exact ht
    | node m =>
      rw [trieWF] at ht
      obtain ⟨hn, hwf⟩ := ht
      rcases hlk : lookupKey m part with _ | sub
      · rw [insertParts, hlk]
        rw [trieWF]
        refine ⟨nodup_setKey m part _ hn, ?_⟩
        rw [entriesWF_iff]
        intro p hp
        rcases (mem_setKey m part _ hn p).mp hp with rfl | ⟨hpm, -⟩
        · exact ih _ trieWF_nil_node l
        · exact (entriesWF_iff m).mp hwf p hpm
      · rw [insertParts, hlk]
        rw [trieWF]
        refine ⟨nodup_setKey m part _ hn, ?_⟩
        rw [entriesWF_iff]
        intro p hp
        rcases (mem_setKey m part _ hn p).mp hp with rfl | ⟨hpm, -⟩
        · exact ih sub
            ((entriesWF_iff m).mp hwf (part, sub) ((lookupKey_eq_some m part sub hn).mp hlk)) l
        · exact (entriesWF_iff m).mp hwf p hpm

/-- With distinct keys, an entry's value is determined by its key. -/
theorem lookup_unique (m : List (String × FieldTrie)) (k : String) (a b : FieldTrie)
    (hn : (m.map Prod.fst).Nodup) (ha : (k, a) ∈ m) (hb : (k, b) ∈ m) : a = b := by
  have h1 := (lookupKey_eq_some m k a hn).mpr ha
  have h2 := (lookupKey_eq_some m k b hn).mpr hb
  rw [h1] at h2
  exact Option.some_inj.mp h2

/-- Skip case of one `fields_to_dict` iteration: when some existing leaf
(a path already marked `ALL_SUBFIELDS`) is a prefix of the walked
hierarchy — i.e. a proper prefix of the full path `h ++ [l]` — the walk
reaches the sentinel, `break`s, and the trie's leaf set is unchanged:
the path is absorbed into the wildcard prefix. -/
theorem trieLeaves_insertParts_skip (h : List String) : ∀ (t : FieldTrie), trieWF t →
    (∃ q ∈ trieLeaves t, q <+: h) →
    ∀ (l : String) (r : List String),
      r ∈ trieLeaves (insertParts t h l) ↔ r ∈ trieLeaves t := by
  induction h with
  | nil =>
    intro t ht hex l r
    cases t with
    | all => rw [insertParts]
    | node m =>
      obtain ⟨q, hq, hpre⟩ := hex
      have hq0 : q = [] := List.prefix_nil.mp hpre
      subst hq0
      exact absurd rfl (ne_nil_of_mem_trieLeaves_node hq)
  | cons part rest ih =>
    intro t ht hex l r
    cases t with
    | all => rw [insertParts]
    | node m =>
      rw [trieWF] at ht
      obtain ⟨hn, hwf⟩ := ht
      obtain ⟨q, hq, hpre⟩ := hex
      obtain ⟨p, hpm, q', rfl, hq'⟩ := (mem_trieLeaves_node m q).mp hq
      obtain ⟨k1, sub1⟩ := p
      obtain ⟨hhead, htail⟩ := List.cons_prefix_cons.mp hpre
      simp only at hhead
      subst hhead
      simp only at hq'
      have hlk : lookupKey m k1 = some sub1 :=
        (lookupKey_eq_some m k1 sub1 hn).mpr hpm
      rw [insertParts, hlk]
      have hsub_wf : trieWF sub1 := (entriesWF_iff m).mp hwf (k1, sub1) hpm
      have hchild := ih sub1 hsub_wf ⟨q', hq', htail⟩ l
      rw [mem_trieLeaves_node, mem_trieLeaves_node]
      constructor
      · rintro ⟨p', hp', r', hreq, hr'⟩
        rcases (mem_setKey m k1 _ hn p').mp hp' with rfl | ⟨hpm', -⟩
        · exact ⟨(k1, sub1), hpm, r', hreq, (hchild r').mp hr'⟩
        · exact ⟨p', hpm', r', hreq, hr'⟩
      · rintro ⟨p', hpm', r', hreq, hr'⟩
        obtain ⟨k2, sub2⟩ := p'
        by_cases hk2 : k2 = k1
        · subst hk2
          have hs : sub2 = sub1 := lookup_unique m k2 sub2 sub1 hn hpm' hpm
          subst hs
          refine ⟨(k2, insertParts sub2 rest l),
            (mem_setKey m k2 _ hn _).mpr (Or.inl rfl), r', hreq, ?_⟩
          exact (hchild r').mpr hr'
        · exact ⟨(k2, sub2),
            (mem_setKey m k1 _ hn _).mpr (Or.inr ⟨hpm', hk2⟩), r', hreq, hr'⟩

/-- The sentinel's only leaf is the empty relative path. -/
theorem trieLeaves_all : trieLeaves .all = [[]] := by rw [trieLeaves]

/-- An empty dict node has no leaves. -/
theorem trieLeaves_nil_node : trieLeaves (.node []) = [] := by rw [trieLeaves]

/-- Insert case of one `fields_to_dict` iteration: when no existing leaf
is a prefix of the walked hierarchy, the new path `h ++ [l]` becomes a
leaf and the leaves it strictly or weakly extends are overwritten
(`value[last] = ALL_SUBFIELDS` replaces any subtree); all other leaves
survive. -/
theorem trieLeaves_insertParts_ins (h : List String) : ∀ (t : FieldTrie), trieWF t →
    (¬ ∃ q ∈ trieLeaves t, q <+: h) →
    ∀ (l : String) (r : List String),
      r ∈ trieLeaves (insertParts t h l) ↔
        (r ∈ trieLeaves t ∧ ¬ (h ++ [l]) <+: r) ∨ r = h ++ [l] := by
  induction h with
  | nil =>
    intro t ht hex l r
    cases t with
    | all =>
      exact absurd ⟨[], by rw [trieLeaves_all]; simp, List.nil_prefix⟩ hex
    | node m =>
      rw [trieWF] at ht
      obtain ⟨hn, hwf⟩ := ht
      rw [insertParts]
      rw [mem_trieLeaves_node, mem_trieLeaves_node]
      simp only [List.nil_append]
      constructor
      · rintro ⟨p', hp', r', hreq, hr'⟩
        rcases (mem_setKey m l _ hn p').mp hp' with rfl | ⟨hpm', hne⟩
        · rw [trieLeaves_all] at hr'
          simp at hr'
          subst hr'
          exact Or.inr hreq
        · refine Or.inl ⟨⟨p', hpm', r', hreq, hr'⟩, ?_⟩
          subst hreq
          intro hpre
          obtain ⟨h1, -⟩ := List.cons_prefix_cons.mp hpre
          exact hne h1.symm
      · rintro (⟨⟨p', hpm', r', hreq, hr'⟩, hnpre⟩ | rfl)
        · subst hreq
          have hne : p'.1 ≠ l := by
            intro he
            exact hnpre (by
              rw [he]
              exact List.cons_prefix_cons.mpr ⟨rfl, List.nil_prefix⟩)
          exact ⟨p', (mem_setKey m l _ hn p').mpr (Or.inr ⟨hpm', hne⟩), r', rfl, hr'⟩
        · exact ⟨(l, .all), (mem_setKey m l _ hn _).mpr (Or.inl rfl), [], rfl,
            by rw [trieLeaves_all]; simp⟩
  | cons part rest ih =>
    intro t ht hex l r
    cases t with
    | all => exact absurd ⟨[], by rw [trieLeaves_all]; simp, List.nil_prefix⟩ hex
    | node m =>
      rw [trieWF] at ht
      obtain ⟨hn, hwf⟩ := ht
      rcases hlk : lookupKey m part with _ | sub
      · rw [insertParts, hlk]
        have hkabs : part ∉ m.map Prod.fst := (lookupKey_eq_none m part).mp hlk
        have hchild := ih (.node []) trieWF_nil_node
          (by rintro ⟨q, hq, -⟩; rw [trieLeaves_nil_node] at hq; exact (List.not_mem_nil q) hq) l
        rw [mem_trieLeaves_node, mem_trieLeaves_node]
        constructor
        · rintro ⟨p', hp', r', hreq, hr'⟩
          rcases (mem_setKey m part _ hn p').mp hp' with rfl | ⟨hpm', hne⟩
          · rcases (hchild r').mp hr' with ⟨hmem, -⟩ | rfl
            · rw [trieLeaves_nil_node] at hmem
              exact absurd hmem (List.not_mem_nil r')
            · exact Or.inr (by rw [hreq, List.cons_append])
          · refine Or.inl ⟨⟨p', hpm', r', hreq, hr'⟩, ?_⟩
            subst hreq
            intro hpre
            rw [List.cons_append] at hpre
            exact hne (List.cons_prefix_cons.mp hpre).1.symm
        · rintro (⟨⟨p', hpm', r', hreq, hr'⟩, hnpre⟩ | rfl)
          · have hne : p'.1 ≠ part := fun he => hkabs (List.mem_map.mpr ⟨p', hpm', he⟩)
            exact ⟨p', (mem_setKey m part _ hn p').mpr (Or.inr ⟨hpm', hne⟩), r', hreq, hr'⟩
          · exact ⟨(part, insertParts (.node []) rest l),
              (mem_setKey m part _ hn _).mpr (Or.inl rfl), rest ++ [l],
              by rw [List.cons_append], (hchild _).mpr (Or.inr rfl)⟩
      · rw [insertParts, hlk]
        have hpm : (part, sub) ∈ m := (lookupKey_eq_some m part sub hn).mp hlk
        have hsub_wf := (entriesWF_iff m).mp hwf (part, sub) hpm
        have hex_child : ¬ ∃ q ∈ trieLeaves sub, q <+: rest := by
          rintro ⟨q, hq, hqpre⟩
          exact hex ⟨part :: q,
            (mem_trieLeaves_node m _).mpr ⟨(part, sub), hpm, q, rfl, hq⟩,
            List.cons_prefix_cons.mpr ⟨rfl, hqpre⟩⟩
        have hchild := ih sub hsub_wf hex_child l
        rw [mem_trieLeaves_node, mem_trieLeaves_node]
        constructor
        · rintro ⟨p', hp', r', hreq, hr'⟩
          rcases (mem_setKey m part _ hn p').mp hp' with rfl | ⟨hpm', hne⟩
          · rcases (hchild r').mp hr' with ⟨hmem, hnpre⟩ | rfl
            · refine Or.inl ⟨⟨(part, sub), hpm, r', hreq, hmem⟩, ?_⟩
              subst hreq
              intro hpre
              rw [List.cons_append] at hpre
              exact hnpre (List.cons_prefix_cons.mp hpre).2
            · exact Or.inr (by rw [hreq, List.cons_append])
          · refine Or.inl ⟨⟨p', hpm', r', hreq, hr'⟩, ?_⟩
            subst hreq
            intro hpre
            rw [List.cons_append] at hpre
            exact hne (List.cons_prefix_cons.mp hpre).1.symm
        · rintro (⟨⟨p', hpm', r', hreq, hr'⟩, hnpre⟩ | rfl)
          · obtain ⟨k2, sub2⟩ := p'
            by_cases hk2 : k2 = part
            · subst hk2
              have hs2 : sub2 = sub := lookup_unique m k2 sub2 sub hn hpm' hpm
              subst hs2
              refine ⟨(k2, insertParts sub2 rest l),
                (mem_setKey m k2 _ hn _).mpr (Or.inl rfl), r', hreq, ?_⟩
              apply (hchild r').mpr
              refine Or.inl ⟨hr', ?_⟩
              intro hpre
              refine hnpre ?_
              subst hreq
              rw [List.cons_append]
              exact List.cons_prefix_cons.mpr ⟨rfl, hpre⟩
            · exact ⟨(k2, sub2),
                (mem_setKey m part _ hn _).mpr (Or.inr ⟨hpm', hk2⟩), r', hreq, hr'⟩
          · exact ⟨(part, insertParts sub rest l),
              (mem_setKey m part _ hn _).mpr (Or.inl rfl), rest ++ [l],
              by rw [List.cons_append], (hchild _).mpr (Or.inr rfl)⟩

/-- A proper prefix is strictly shorter. -/
theorem properPrefix_length_lt {q p : List String} (h : properPrefix q p) :
    q.length < p.length := by
  obtain ⟨hpre, hne⟩ := h
  rcases Nat.lt_or_ge q.length p.length with hlt | hge
  · exact hlt
  · exact absurd (hpre.eq_of_length (Nat.le_antisymm hpre.length_le hge)) hne

/-- Bounded-length induction for `exists_minimal`. -/
theorem exists_minimal_le (P : List (List String)) :
    ∀ (n : Nat) (q : List String), q.length ≤ n → q ∈ P →
      ∃ m, minimalPath P m ∧ m <+: q := by
  intro n
  induction n with
  | zero =>
    intro q hlen hq
    refine ⟨q, ⟨hq, ?_⟩, List.prefix_refl q⟩
    rintro ⟨q', hq', hpp⟩
    have := properPrefix_length_lt hpp
    omega
  | succ n ih =>
    intro q hlen hq
    by_cases hmin : ∃ q' ∈ P, properPrefix q' q
    · obtain ⟨q', hq', hpp⟩ := hmin
      have hlt := properPrefix_length_lt hpp
      obtain ⟨m, hm, hmq⟩ := ih q' (by omega) hq'
      exact ⟨m, hm, hmq.trans hpp.1⟩
    · exact ⟨q, ⟨hq, hmin⟩, List.prefix_refl q⟩

/-- Every requested path has a minimal (wildcard) path of the request
list as a prefix. -/
theorem exists_minimal (P : List (List String)) (q : List String) (hq : q ∈ P) :
    ∃ m, minimalPath P m ∧ m <+: q :=
  exists_minimal_le P q.length q (Nat.le_refl _) hq

/-- Appending a path that has a proper prefix in the list leaves the
minimal-path set unchanged. -/
theorem minimal_append_absorbed (L : List (List String)) (p : List String)
    (hex : ∃ q ∈ L, properPrefix q p) (r : List String) :
    minimalPath (L ++ [p]) r ↔ minimalPath L r := by
  obtain ⟨q, hqL, hqp⟩ := hex
  constructor
  · rintro ⟨hr, hno⟩
    rcases List.mem_append.mp hr with hrL | hrp
    · refine ⟨hrL, ?_⟩
      rintro ⟨q', hq', hpp⟩
      exact hno ⟨q', List.mem_append.mpr (Or.inl hq'), hpp⟩
    · have hrp : r = p := by simpa using hrp
      subst hrp
      exact absurd ⟨q, List.mem_append.mpr (Or.inl hqL), hqp⟩ hno
  · rintro ⟨hr, hno⟩
    refine ⟨List.mem_append.mpr (Or.inl hr), ?_⟩
    rintro ⟨q', hq', hpp⟩
    rcases List.mem_append.mp hq' with hqL' | hqp'
    · exact hno ⟨q', hqL', hpp⟩
    · have : q' = p := by simpa using hqp'
      subst this
      refine hno ⟨q, hqL, ?_⟩
      exact ⟨hqp.1.trans hpp.1, by
        intro he
        have h1 := properPrefix_length_lt hqp
        have h2 := properPrefix_length_lt hpp
        rw [he] at h1
        omega⟩

/-- Appending a path with no proper prefix in the list makes it minimal
and demotes its strict extensions. -/
theorem minimal_append_fresh (L : List (List String)) (p : List String)
    (hex : ¬ ∃ q ∈ L, properPrefix q p) (r : List String) :
    minimalPath (L ++ [p]) r ↔ (minimalPath L r ∧ ¬ p <+: r) ∨ r = p := by
  constructor
  · rintro ⟨hr, hno⟩
    rcases List.mem_append.mp hr with hrL | hrp
    · by_cases hrep : r = p
      · exact Or.inr hrep
      · refine Or.inl ⟨⟨hrL, ?_⟩, ?_⟩
        · rintro ⟨q', hq', hpp⟩
          exact hno ⟨q', List.mem_append.mpr (Or.inl hq'), hpp⟩
        · intro hpr
          exact hno ⟨p, List.mem_append.mpr (Or.inr (by simp)), hpr, fun he => hrep he.symm⟩
    · exact Or.inr (by simpa using hrp)
  · rintro (⟨⟨hrL, hno⟩, hnp⟩ | rfl)
    · refine ⟨List.mem_append.mpr (Or.inl hrL), ?_⟩
      rintro ⟨q', hq', hpp⟩
      rcases List.mem_append.mp hq' with hqL' | hqp'
      · exact hno ⟨q', hqL', hpp⟩
      · have : q' = p := by simpa using hqp'
        subst this
        exact hnp hpp.1
    · refine ⟨List.mem_append.mpr (Or.inr (by simp)), ?_⟩
      rintro ⟨q', hq', hpp⟩
      rcases List.mem_append.mp hq' with hqL' | hqp'
      · exact hex ⟨q', hqL', hpp⟩
      · have : q' = r := by simpa using hqp'
        subst this
        exact hpp.2 rfl

/-- Invariant of the `fields_to_dict` loop: after processing any list of
nonempty split paths, the trie is well formed and its leaf paths are
exactly the minimal paths of the processed list — independently of the
order in which the paths arrived. -/
theorem fields_fold_spec (P : List (List String)) (hP : ∀ p ∈ P, p ≠ []) :
    trieWF (P.foldl insertPath (.node [])) ∧
    ∀ r, r ∈ trieLeaves (P.foldl insertPath (.node [])) ↔ minimalPath P r := by
  induction P using List.reverseRecOn with
  | nil =>
    refine ⟨trieWF_nil_node, ?_⟩
    intro r
    rw [List.foldl_nil, trieLeaves_nil_node]
    simp [minimalPath]
  | append_singleton L p ihL =>
    have hL : ∀ q ∈ L, q ≠ [] := fun q hq => hP q (List.mem_append.mpr (Or.inl hq))
    obtain ⟨hwf, hleaves⟩ := ihL hL
    have hp : p ≠ [] := hP p (List.mem_append.mpr (Or.inr (by simp)))
    rw [List.foldl_append, List.foldl_cons, List.foldl_nil]
    have hgl : p.getLast? = some (p.getLast hp) :=
      List.getLast?_eq_getLast_of_ne_nil hp
    have hins : insertPath (L.foldl insertPath (.node [])) p =
        insertParts (L.foldl insertPath (.node [])) p.dropLast (p.getLast hp) := by
      rw [insertPath, hgl]
    have hsplit : p.dropLast ++ [p.getLast hp] = p := List.dropLast_append_getLast hp
    refine ⟨by rw [hins]; exact insertParts_WF p.dropLast _ hwf _, ?_⟩
    intro r
    rw [hins]
    by_cases hex : ∃ q ∈ trieLeaves (L.foldl insertPath (.node [])), q <+: p.dropLast
    · rw [trieLeaves_insertParts_skip p.dropLast _ hwf hex]
      rw [hleaves]
      rw [minimal_append_absorbed L p ?_]
      obtain ⟨q, hq, hqpre⟩ := hex
      have hqL : q ∈ L := ((hleaves q).mp hq).1
      refine ⟨q, hqL, hqpre.trans (List.dropLast_prefix p), ?_⟩
      intro he
      have h1 := hqpre.length_le
      have h2 : p.dropLast.length = p.length - 1 := List.length_dropLast p
      have h3 : 0 < p.length := List.length_pos.mpr hp
      rw [he] at h1
      omega
    · rw [trieLeaves_insertParts_ins p.dropLast _ hwf hex]
      rw [hsplit, hleaves]
      rw [minimal_append_fresh L p ?_]
      rintro ⟨q, hqL, hqpre⟩
      obtain ⟨m, hm, hmq⟩ := exists_minimal L q hqL
      refine hex ⟨m, (hleaves m).mpr hm, hmq.trans ?_⟩
      have h1 := properPrefix_length_lt hqpre
      have h2 : p.dropLast.length = p.length - 1 := List.length_dropLast p
      exact List.prefix_of_prefix_length_le hqpre.1 (List.dropLast_prefix p) (by omega)

/-- C4: for every finite set `P` of dotted field paths (each path its
nonempty `"."`-split component list), flattening the trie produced by
`fields_to_dict P` back into dotted leaf paths yields exactly the
leaf-path set of `P` — the paths of `P` that have no proper prefix in
`P` — so the round trip is the identity on prefix-free sets, and any
path one of whose proper prefixes was marked as the select-all-subfields
wildcard is absorbed into that wildcard prefix rather than added as a
separate entry. -/
theorem C4_fields_to_dict_round_trip :
    ∀ (P : List (List String)), (∀ p ∈ P, p ≠ []) →
      ∀ r, r ∈ dictLeaves (fields_to_dict P) ↔ minimalPath P r := by
  intro P hP r
  rw [fields_to_dict]
  by_cases hPe : P.isEmpty
  · have hP0 : P = [] := by simpa [List.isEmpty_iff] using hPe
    subst hP0
    rw [if_pos (by simp : ([] : List (List String)).isEmpty = true)]
    rw [dictLeaves]
    simp [minimalPath]
  · rw [if_neg hPe]
    rw [dictLeaves]
    exact (fields_fold_spec P hP).2 r

/-- Witness for C4 on the concrete path set
`{"data.family", "name", "data", "data.thumb"}` at the path `"data"`. -/
theorem C4_witness :
    (∀ p ∈ [["data", "family"], ["name"], ["data"], ["data", "thumb"]], p ≠ []) ∧
    (["data"] ∈ dictLeaves
        (fields_to_dict [["data", "family"], ["name"], ["data"], ["data", "thumb"]]) ↔
      minimalPath [["data", "family"], ["name"], ["data"], ["data", "thumb"]] ["data"]) :=
  ⟨by decide,
    C4_fields_to_dict_round_trip
      [["data", "family"], ["name"], ["data"], ["data", "thumb"]] (by decide) ["data"]⟩
